import Mathlib

/-!
Verification of the Food Corner classification engine of the
`invoice-analysis` repository (`src/fc_map_utils.py`).

The development is a shallow embedding of the Python source:

* `normalize_text` / `norm_one` (lines 10-25) become `normalizeText` /
  `normOne`, working on `List Char` with explicit character tables for
  `str.lower` and `unidecode` (both are modelled on the character set
  relevant to the domain: identity on ASCII, a transliteration table for
  Polish and common Latin diacritics, empty output for other code points,
  which is the unidecode default for unmapped characters).
* The regular expressions of the rule engine are embedded through a small
  regex abstract syntax (`RE`) with an executable, existential matcher
  (`reSearch`), faithful to `re.search` semantics for the constructs the
  source uses: literals, character classes, alternation, option, star over
  a character class, and the word boundary assertion.
* `rapidfuzz.fuzz.token_set_ratio`, `rapidfuzz.process.extractOne` and the
  `Indel`-based `ratio` are embedded from the published rapidfuzz
  algorithm; floating point scores are modelled by exact rational
  arithmetic truncated to integers (the Python caller truncates with
  `int(...)`), and ties between candidates keep the first maximal one, as
  `extractOne` does.
* `map_fc_products` (lines 134-268) becomes `mapFcProducts` over a small
  dataframe model (`Df`): a column-name list plus rows of
  (column, optional string cell) pairs; missing values are `none`.
  Fallible behaviour is returned as `Except String`.
-/

/-! ## Text normalization (`normalize_text`, lines 10-22) -/

/-- Python whitespace characters matched by `\s` and stripped by
`str.strip()` on the ASCII strings this pipeline produces. -/
def isPyWs (c : Char) : Bool :=
  c = ' ' || c = '\t' || c = '\n' || c = '\x0d' || c = '\x0b' || c = '\x0c'

/-- `str.lower()`: modelled on ASCII plus the Polish uppercase letters
(the only non-ASCII letters this data set carries); identity elsewhere. -/
def pyLowerChar (c : Char) : Char :=
  if 65 ≤ c.toNat && c.toNat ≤ 90 then Char.ofNat (c.toNat + 32)
  else if c = 'Ą' then 'ą' else if c = 'Ć' then 'ć' else if c = 'Ę' then 'ę'
  else if c = 'Ł' then 'ł' else if c = 'Ń' then 'ń' else if c = 'Ó' then 'ó'
  else if c = 'Ś' then 'ś' else if c = 'Ź' then 'ź' else if c = 'Ż' then 'ż'
  else c

/-- `unidecode.unidecode`, per character: identity on ASCII, a
transliteration table for Polish and common Latin diacritics, and the
empty string for unmapped code points (the unidecode default). -/
def unidecodeChar (c : Char) : List Char :=
  if c.toNat < 128 then [c]
  else if c = 'ą' then ['a'] else if c = 'ć' then ['c'] else if c = 'ę' then ['e']
  else if c = 'ł' then ['l'] else if c = 'ń' then ['n'] else if c = 'ó' then ['o']
  else if c = 'ś' then ['s'] else if c = 'ź' then ['z'] else if c = 'ż' then ['z']
  else if c = 'Ą' then ['A'] else if c = 'Ć' then ['C'] else if c = 'Ę' then ['E']
  else if c = 'Ł' then ['L'] else if c = 'Ń' then ['N'] else if c = 'Ó' then ['O']
  else if c = 'Ś' then ['S'] else if c = 'Ź' then ['Z'] else if c = 'Ż' then ['Z']
  else if c = 'é' then ['e'] else if c = 'è' then ['e'] else if c = 'ê' then ['e']
  else if c = 'á' then ['a'] else if c = 'à' then ['a'] else if c = 'ä' then ['a']
  else if c = 'ö' then ['o'] else if c = 'ü' then ['u'] else if c = 'ß' then ['s', 's']
  else []

/-- The character class kept by the substitution
`[^a-z0-9\s\-\+] -> " "` (line 18): lowercase ASCII letters, ASCII
digits, whitespace, minus and plus. -/
def keepChar (c : Char) : Bool :=
  (97 ≤ c.toNat && c.toNat ≤ 122) || (48 ≤ c.toNat && c.toNat ≤ 57) ||
    isPyWs c || c = '-' || c = '+'

/-- `str.replace(r"[^a-z0-9\s\-\+]", " ")`. -/
def replaceBad (l : List Char) : List Char :=
  l.map (fun c => if keepChar c then c else ' ')

/-- `str.replace(r"\s+", " ")`: every maximal whitespace run becomes one
space (a run contributes one space, emitted at its last character). -/
def collapseWs : List Char → List Char
  | [] => []
  | [c] => if isPyWs c then [' '] else [c]
  | c :: d :: cs =>
    if isPyWs c then
      if isPyWs d then collapseWs (d :: cs)
      else ' ' :: collapseWs (d :: cs)
    else c :: collapseWs (d :: cs)

/-- `str.strip()`: drop whitespace from both ends. -/
def stripWs (l : List Char) : List Char :=
  ((l.dropWhile isPyWs).reverse.dropWhile isPyWs).reverse

/-- `normalize_text` (lines 10-22) applied to one string value:
lowercase, transliterate diacritics, keep `[a-z0-9\s\-\+]`, collapse
whitespace runs, strip. -/
def normalizeText (s : String) : String :=
  ⟨stripWs (collapseWs (replaceBad ((s.data.map pyLowerChar).flatMap unidecodeChar)))⟩

/-- `norm_one` (lines 24-25): `normalize_text` on a one-element series. -/
def normOne (s : String) : String := normalizeText s

/-! ## Regex engine

A minimal abstract syntax covering exactly the constructs used by the
patterns in `fc_map_utils.py`: character literals and classes,
concatenation, alternation, the `?` option, `*` over a character class
(`\w*` and `.*`), and the zero-width word boundary `\b`. The matcher
`ends re l i` returns every position at which a match of `re` that
starts at `i` can end; `reSearch` is `re.search`: a match exists
starting somewhere. -/

inductive RE where
  | eps : RE
  | cls : (Char → Bool) → RE
  | seq : RE → RE → RE
  | alt : RE → RE → RE
  | opt : RE → RE
  | starCls : (Char → Bool) → RE
  | bnd : RE

/-- Word characters for `\b` and `\w` (Python `re` on `str`): ASCII
letters, digits, underscore, plus the Polish letters that can occur in
this data set. -/
def isWordChar (c : Char) : Bool :=
  (65 ≤ c.toNat && c.toNat ≤ 90) || (97 ≤ c.toNat && c.toNat ≤ 122) ||
    (48 ≤ c.toNat && c.toNat ≤ 57) || c = '_' ||
    c = 'ą' || c = 'ć' || c = 'ę' || c = 'ł' || c = 'ń' || c = 'ó' ||
    c = 'ś' || c = 'ź' || c = 'ż' || c = 'ó' || c = 'Ą' || c = 'Ć' ||
    c = 'Ę' || c = 'Ł' || c = 'Ń' || c = 'Ó' || c = 'Ś' || c = 'Ź' || c = 'Ż'

/-- Is the character at position `i` a word character (false past the
end)? -/
def isWordAt (l : List Char) (i : Nat) : Bool :=
  match l.get? i with
  | some c => isWordChar c
  | none => false

/-- The `\b` assertion at position `i`. -/
def isBoundary (l : List Char) (i : Nat) : Bool :=
  (if i = 0 then false else isWordAt l (i - 1)) != isWordAt l i

/-- All end positions of a match of `r` in `l` starting at `i`. -/
def ends : RE → List Char → Nat → List Nat
  | .eps, _, i => [i]
  | .cls p, l, i =>
    match l.get? i with
    | some c => if p c then [i + 1] else []
    | none => []
  | .seq a b, l, i => (ends a l i).flatMap (fun j => ends b l j)
  | .alt a b, l, i => ends a l i ++ ends b l i
  | .opt a, l, i => i :: ends a l i
  | .starCls p, l, i =>
    (List.range (((l.drop i).takeWhile p).length + 1)).map (fun k => i + k)
  | .bnd, l, i => if isBoundary l i then [i] else []

/-- `re.search(r, l) is not None` over a character list. -/
def reSearchL (r : RE) (l : List Char) : Bool :=
  (List.range (l.length + 1)).any (fun i => !(ends r l i).isEmpty)

/-- `re.search(r, s) is not None`. -/
def reSearch (r : RE) (s : String) : Bool := reSearchL r s.data

/-! Pattern-building helpers. -/

/-- A single literal character. -/
def lit (c : Char) : RE := .cls (fun d => d = c)

/-- A literal string. -/
def strLit (w : String) : RE := w.data.foldr (fun c r => .seq (lit c) r) .eps

/-- `\bw\b` for a literal word `w`. -/
def wordRe (w : String) : RE := .seq .bnd (.seq (strLit w) .bnd)

/-- `\bw` for a literal stem `w` (no trailing boundary). -/
def stemRe (w : String) : RE := .seq .bnd (strLit w)

/-- `\w*`. -/
def wStar : RE := .starCls isWordChar

/-- `.*` (any character except newline). -/
def dotStar : RE := .starCls (fun c => !(c = '\n'))

/-- `\d`. -/
def digitRe : RE := .cls (fun c => 48 ≤ c.toNat && c.toNat ≤ 57)

/-- Fold a pattern list into one alternation, like `"|".join(patterns)`. -/
def altList : List RE → RE
  | [] => .eps
  | [r] => r
  | r :: rs => .alt r (altList rs)

/-- `any(re.search(p, text) for p in patterns)` — `hits_any` (lines
46-47). -/
def hitsAny (patterns : List RE) (text : String) : Bool :=
  patterns.any (fun p => reSearch p text)

/-! ## Rule patterns (`fc_map_utils.py` lines 29-130 and 153-184) -/

/-- `\bhot\s?-?\s?dog\b`. -/
def hotDogRe : RE :=
  .seq .bnd (.seq (strLit "hot") (.seq (.opt (.cls isPyWs)) (.seq (.opt (lit '-'))
    (.seq (.opt (.cls isPyWs)) (.seq (strLit "dog") .bnd)))))

/-- `\btost(y|)\b`. -/
def tostRe : RE := .seq .bnd (.seq (strLit "tost") (.seq (.opt (lit 'y')) .bnd))

/-- `\bsandw(ich|)`. -/
def sandwRe : RE := .seq .bnd (.seq (strLit "sandw") (.alt (strLit "ich") .eps))

/-- `POS_PATTERNS` as compiled into `POS_RE` inside `map_fc_products`
(lines 158-167 joined with `|` at line 178). -/
def posRuleRe : RE := altList [
  .seq .bnd (.seq (strLit "hot") (.seq (.opt (.cls (fun c => isPyWs c || c = '-')))
    (.seq (strLit "dog") .bnd))),
  .alt tostRe (wordRe "toast"),
  wordRe "panini",
  .seq .bnd (.seq (strLit "frytk") (.seq wStar .bnd)),
  .seq .bnd (.seq (strLit "nugget") (.seq wStar .bnd)),
  .seq .bnd (.seq (strLit "strip") (.seq (.opt (lit 's')) .bnd)),
  .seq .bnd (.seq (strLit "filecik") (.seq wStar .bnd)),
  wordRe "kurczaker"]

/-- `NEG_PATTERNS` as compiled into `NEG_RE` inside `map_fc_products`
(lines 168-176 joined with `|` at line 179). -/
def negRuleRe : RE := altList [
  .seq .bnd (.seq (strLit "mro") (.seq (.alt (lit 'ż') (lit 'z')) (.seq (strLit "on") wStar))),
  wordRe "plastry",
  .seq (wordRe "filet") (.seq dotStar (.seq .bnd (.seq digitRe (.seq digitRe
    (.seq (.opt digitRe) (.seq (.opt (.cls isPyWs)) (.seq (lit 'g') .bnd))))))),
  .alt (wordRe "lisner") (wordRe "duda"),
  .alt (wordRe "pedigree") (wordRe "reno"),
  .alt (wordRe "duplo") (wordRe "snickers"),
  .alt (wordRe "pies") (.alt (.seq .bnd (.seq (strLit "ps")
    (.seq (.alt (strLit "ów") (strLit "ow")) .bnd))) (wordRe "kot"))]

/-- `rule_is_fc` (lines 181-184): a positive hit and no negative hit.
The patterns are compiled with `re.IGNORECASE`; since every pattern
literal is lowercase, that flag is modelled by lowercasing the input
before matching. Non-string input is coerced to `""` by the caller. -/
def ruleIsFc (s : String) : Bool :=
  let l := s.data.map pyLowerChar
  reSearchL posRuleRe l && !(reSearchL negRuleRe l)

/-- `LINES_DENY` (line 103): obvious non-FC product-line cues. -/
def linesDeny : List RE :=
  [wordRe "napoj", wordRe "piwo", stemRe "papieros", wordRe "lufka", wordRe "butelka"]

/-- `NEG_FROZEN_PACK` (lines 121-122): frozen/packaged deny cues. -/
def negFrozenPack : List RE :=
  [stemRe "mroz", stemRe "mrozona", stemRe "mrozone", stemRe "zamroz",
   wordRe "gleboko", stemRe "zgrzew", wordRe "karton", wordRe "paczka",
   stemRe "konserw", wordRe "sloik"]

/-- `LINES_ALLOW` (lines 106-118): product-line allow patterns per
category, in source insertion order. -/
def linesAllow : List (String × List RE) := [
  ("Pizza", [wordRe "pizza", wordRe "pinsa"]),
  ("Hot Dog", [hotDogRe, wordRe "hotdog", wordRe "hd"]),
  ("Burger", [wordRe "burger"]),
  ("Wrap", [wordRe "wrap"]),
  ("Panini", [wordRe "panini", stemRe "bagiet"]),
  ("Tosty", [tostRe]),
  ("Kanapki", [stemRe "kanapk", sandwRe]),
  ("Zapiekanka", [stemRe "zapiekank"]),
  ("Sałatki", [stemRe "salatk", stemRe "salat", stemRe "salad"]),
  ("Frytki/Box", [wordRe "frytki", wordRe "chrupbox", wordRe "box", stemRe "nugget",
    stemRe "strip", stemRe "filecik", wordRe "filet"]),
  ("Kawa", [wordRe "kawa", wordRe "espresso", wordRe "latte", wordRe "americano",
    wordRe "cappuccino"])]

/-- `POS` (lines 88-100): product-name allow patterns per category, in
source insertion order. -/
def posAllow : List (String × List RE) := [
  ("Pizza", [wordRe "pizza", wordRe "pinsa", stemRe "piec", stemRe "piecz",
    wordRe "na wynos", wordRe "slice", wordRe "kawalek"]),
  ("Hot Dog", [hotDogRe, wordRe "hotdog", wordRe "hd"]),
  ("Burger", [wordRe "burger"]),
  ("Wrap", [wordRe "wrap"]),
  ("Panini", [wordRe "panini", stemRe "bagiet"]),
  ("Tosty", [tostRe]),
  ("Kanapki", [stemRe "kanapk", sandwRe]),
  ("Zapiekanka", [stemRe "zapiekank"]),
  ("Sałatki", [stemRe "salatk", stemRe "salat", stemRe "salad"]),
  ("Frytki/Box", [wordRe "frytki", wordRe "chrupbox", wordRe "box", stemRe "nugget",
    stemRe "strip", stemRe "filecik", wordRe "filet"]),
  ("Kawa", [wordRe "kawa", wordRe "espresso", wordRe "americano", wordRe "latte",
    wordRe "cappuccino", wordRe "flat white"])]

/-- `first_hit_category` (lines 126-130): first category whose pattern
set hits, else none. -/
def firstHitCategory (text : String) (cat2pats : List (String × List RE)) : Option String :=
  match cat2pats.find? (fun cp => hitsAny cp.2 text) with
  | some cp => some cp.1
  | none => none

/-- `infer_super_cat` (lines 29-44): normalize, then test the ordered
keyword rules; the first matching category wins. -/
def inferSuperCat (text : String) : Option String :=
  let t := normOne text
  if reSearch (wordRe "pizza") t then some "Pizza"
  else if reSearch (wordRe "pinsa") t then some "Pizza"
  else if reSearch (altList [hotDogRe, wordRe "hotdog", wordRe "hd"]) t then some "Hot Dog"
  else if reSearch (wordRe "burger") t then some "Burger"
  else if reSearch (wordRe "wrap") t then some "Wrap"
  else if reSearch (altList [wordRe "panini", stemRe "bagiet"]) t then some "Panini"
  else if reSearch tostRe t then some "Tosty"
  else if reSearch (altList [stemRe "kanapk", stemRe "sandw"]) t then some "Kanapki"
  else if reSearch (stemRe "zapiekank") t then some "Zapiekanka"
  else if reSearch (altList [stemRe "salatk", stemRe "salat", stemRe "salad"]) t then some "Sałatki"
  else if reSearch (altList [wordRe "frytki", wordRe "chrupbox", wordRe "box",
    stemRe "nugget", stemRe "strip", stemRe "filecik", wordRe "filet"]) t then some "Frytki/Box"
  else if reSearch (altList [wordRe "kawa", wordRe "espresso", wordRe "americano",
    wordRe "latte", wordRe "cappuccino", wordRe "flat white"]) t then some "Kawa"
  else none

/-- `FC_CATEGORIES` as defined inside `map_fc_products` (lines 153-156):
the inherently-FC canonical categories. -/
def fcCategories : List String :=
  ["Hot Dog", "Tosty", "Panini", "Frytki/Box", "Zupy",
   "Makaron", "Pizza", "Pinsa", "Sałatki"]

/-! ## Fuzzy matching (`rapidfuzz`)

`fuzz.token_set_ratio` and `process.extractOne(..., scorer=fuzz.token_set_ratio)`
embedded from the rapidfuzz algorithm. The similarity scores that
rapidfuzz computes in floating point are modelled by exact integer
arithmetic: each ratio is `floor(100 * similarity)` computed as a
natural-number division, which is the value `int(match[1])` extracts in
`map_fc_products` (line 243) up to the last-ulp float rounding that the
claims never depend on. -/

/-- `str.split()` worker: fuel-bounded so that it reduces by structural
recursion; every step consumes at least one character, so fuel equal to
the list length never runs out. -/
def splitWsF : Nat → List Char → List (List Char)
  | 0, _ => []
  | _, [] => []
  | fuel + 1, c :: cs =>
    if isPyWs c then splitWsF fuel cs
    else (c :: cs.takeWhile (fun d => !isPyWs d)) ::
      splitWsF fuel (cs.dropWhile (fun d => !isPyWs d))

/-- `str.split()`: maximal runs of non-whitespace characters. -/
def splitWs (l : List Char) : List (List Char) := splitWsF l.length l

/-- Worker for `dedupFirst`: drop elements already seen. -/
def dedupSeen {α : Type} [DecidableEq α] : List α → List α → List α
  | _, [] => []
  | seen, a :: l =>
    if a ∈ seen then dedupSeen seen l else a :: dedupSeen (a :: seen) l

/-- Keep the first occurrence of each element (the set-like view of a
token list, and also `pandas.drop_duplicates`). -/
def dedupFirst {α : Type} [DecidableEq α] (l : List α) : List α := dedupSeen [] l

/-- Code-point lexicographic order on character lists (Python string
comparison). -/
def lexLe : List Char → List Char → Bool
  | [], _ => true
  | _ :: _, [] => false
  | a :: as, b :: bs =>
    if a.toNat < b.toNat then true
    else if b.toNat < a.toNat then false
    else lexLe as bs

/-- Insert into a sorted list (ascending `lexLe`). -/
def insertSorted (x : String) : List String → List String
  | [] => [x]
  | y :: ys => if lexLe x.data y.data then x :: y :: ys else y :: insertSorted x ys

/-- `sorted(...)` for Python strings. -/
def sortStrs (l : List String) : List String := l.foldr insertSorted []

/-- Worker for `lcsLen`: fuel-bounded structural recursion; every step
consumes at least one character of the combined input, so fuel equal to
the summed lengths never runs out. -/
def lcsF : Nat → List Char → List Char → Nat
  | 0, _, _ => 0
  | _, [], _ => 0
  | _, _ :: _, [] => 0
  | fuel + 1, a :: as, b :: bs =>
    if a = b then lcsF fuel as bs + 1
    else max (lcsF fuel (a :: as) bs) (lcsF fuel as (b :: bs))

/-- Length of a longest common subsequence; the Indel distance of two
strings is `la + lb - 2 * lcs`. -/
def lcsLen (a b : List Char) : Nat := lcsF (a.length + b.length) a b

/-- `fuzz.ratio`: normalized Indel similarity scaled to `[0,100]`,
truncated to an integer. `100 * (1 - dist/(la+lb)) = 200*lcs/(la+lb)`. -/
def indelRatio (a b : List Char) : Nat :=
  if a.length + b.length = 0 then 100
  else (200 * lcsLen a b) / (a.length + b.length)

/-- `floor(100 * (lensum - dist) / lensum)`, the normalized similarity
rapidfuzz computes for the `sect` versus `sect + diff` comparisons. -/
def normSim (dist lensum : Nat) : Nat :=
  if lensum = 0 then 100 else (100 * (lensum - dist)) / lensum

/-- `fuzz.token_set_ratio`: compare the unique-token sets of the two
strings; if they intersect and one set contains the other the score is
100, otherwise the maximum of the Indel ratio of the sorted token-set
differences and the two `sect`-versus-`sect+diff` similarities. An
empty token set on either side scores 0. -/
def tokenSetRatio (s1 s2 : String) : Nat :=
  let ta := dedupFirst ((splitWs s1.data).map (fun w => (⟨w⟩ : String)))
  let tb := dedupFirst ((splitWs s2.data).map (fun w => (⟨w⟩ : String)))
  if ta.isEmpty || tb.isEmpty then 0
  else
    let sect := ta.filter (fun x => tb.contains x)
    let dab := ta.filter (fun x => !tb.contains x)
    let dba := tb.filter (fun x => !ta.contains x)
    if !sect.isEmpty && (dab.isEmpty || dba.isEmpty) then 100
    else
      let jab := String.intercalate " " (sortStrs dab)
      let jba := String.intercalate " " (sortStrs dba)
      let abLen := jab.length
      let baLen := jba.length
      let sectLen := (String.intercalate " " sect).length
      let one := if sectLen = 0 then 0 else 1
      let sectAbLen := sectLen + one + abLen
      let sectBaLen := sectLen + one + baLen
      let base := indelRatio jab.data jba.data
      let sabR := normSim (one + abLen) (sectLen + sectAbLen)
      let sbaR := normSim (one + baLen) (sectLen + sectBaLen)
      max base (max sabR sbaR)

/-- `process.extractOne(query, choices, scorer=fuzz.token_set_ratio)`:
the `(score, index)` of the best choice; ties keep the first maximal
choice. Returns `none` only for an empty choice list. -/
def extractOne (query : String) (choices : List String) : Option (Nat × Nat) :=
  choices.enum.foldl
    (fun acc ic =>
      match acc with
      | none => some (tokenSetRatio query ic.2, ic.1)
      | some best =>
        if tokenSetRatio query ic.2 > best.1 then some (tokenSetRatio query ic.2, ic.1)
        else some best)
    none

/-! ## Dataframe model and `map_fc_products` (lines 134-268) -/

/-- A cell is a missing value (`NaN`/`None`) or a string. -/
abbrev Cell := Option String

/-- A row: cells keyed by column name. A column absent from a row reads
as missing. -/
abbrev RowT := List (String × Cell)

/-- A minimal dataframe: column names plus rows. -/
structure Df where
  cols : List String
  rows : List RowT
deriving DecidableEq, Repr

/-- Read one cell of a row. -/
def getCell (r : RowT) (c : String) : Cell :=
  match r.find? (fun p => p.1 = c) with
  | some p => p.2
  | none => none

/-- `astype(str)` on a cell: a missing value stringifies to `"nan"`, the
pandas representation (an accepted quirk per the spec, section 4.1). -/
def cellStr (v : Cell) : String :=
  match v with
  | some s => s
  | none => "nan"

/-- One deduplicated candidate: the raw key string, its normalization
(`product_norm`), and the `product_line` column value when available. -/
structure Item where
  raw : String
  nm : String
  pln : Option String
deriving DecidableEq, Repr

/-- The non-null values of column `c`, in row order
(`invoice_df[[c]].dropna()`). -/
def colValues (df : Df) (c : String) : List String :=
  df.rows.filterMap (fun r => getCell r c)

/-- `value_counts().index[0]` of a non-empty list: the most frequent
value; among equally frequent values the earliest first occurrence is
kept (the stable-but-arbitrary tie order of the grouping library). -/
def majorityVote (l : List String) : Option String :=
  (dedupFirst l).foldl
    (fun acc v =>
      match acc with
      | none => some v
      | some b => if l.count v > l.count b then some v else some b)
    none

/-- Build the unique-candidate table (`items`, lines 199-223).

Default key (`key_col == "product_line"`): one item per distinct
non-null key, with `product_line` set to the normalized key.

Otherwise, when the invoice also has a `product_line` column, the source
computes a majority-vote representative per key — but it applies
`normalize_text` (a Series function) elementwise via `Series.apply`, so
each string becomes a per-character Series. On any joined row set whose
strings are not all of length at most one, pandas raises
`ValueError: cannot set a DataFrame with multiple columns to the single
column product_line` at the `assign`; with only empty strings the
zero-column frame also fails to assign; in the residual degenerate case
(all values exactly one character) the per-group aggregation runs over
single normalized characters and raises `IndexError` for a group whose
values are all empty after normalization. This embedding reproduces
those outcomes. -/
def buildItems (invoice : Df) (keyCol : String) : Except String (List Item) :=
  let rawKeys := dedupFirst (colValues invoice keyCol)
  if keyCol = "product_line" then
    .ok (rawKeys.map (fun raw =>
      { raw := raw, nm := normalizeText raw, pln := some (normalizeText raw) }))
  else if invoice.cols.contains "product_line" then
    let joined := invoice.rows.filterMap (fun r =>
      match getCell r keyCol, getCell r "product_line" with
      | some k, some p => some (k, p)
      | _, _ => none)
    if joined.isEmpty then
      .ok (rawKeys.map (fun raw => { raw := raw, nm := normalizeText raw, pln := none }))
    else
      let maxLen : Nat := (joined.map (fun kp => kp.2.length)).foldl max 0
      if 2 ≤ maxLen then
        .error "ValueError: cannot set a DataFrame with multiple columns to the single column product_line"
      else if maxLen = 0 then
        .error "ValueError: cannot set a DataFrame without columns to the column product_line"
      else
        let charOf : String → Option String := fun p =>
          if p = "" then none else some (normalizeText p)
        let keysJ := dedupFirst (joined.map (fun kp => kp.1))
        if keysJ.any (fun k =>
            ((joined.filter (fun kp => kp.1 = k)).filterMap (fun kp => charOf kp.2)).isEmpty) then
          .error "IndexError: index 0 is out of bounds"
        else
          .ok (rawKeys.map (fun raw =>
            { raw := raw, nm := normalizeText raw,
              pln := if keysJ.contains raw then
                  majorityVote ((joined.filter (fun kp => kp.1 = raw)).filterMap
                    (fun kp => charOf kp.2))
                else none }))
  else
    .ok (rawKeys.map (fun raw => { raw := raw, nm := normalizeText raw, pln := none }))

/-- One output row of `map_fc_products` (the dict built at lines
253-261, with `product_key_raw` renamed `product_raw` at line 267). -/
structure OutRow where
  product_raw : String
  product_norm : String
  product_line : String
  best_match_item : Cell
  match_category : Cell
  score : Nat
  is_food_corner_auto : Bool
deriving DecidableEq, Repr

/-- The per-candidate body of the mapping loop (lines 227-261): the
deterministic rule on `product_line`, the catalog-wide fuzzy match, and
the OR-fused decision
`is_fc = rule_fc or cat_fc or score >= threshold`. -/
def classifyItem (canRows : List RowT) (canItems : List String) (threshold : Int)
    (it : Item) : OutRow :=
  let pln := match it.pln with
    | some s => s
    | none => ""
  let ruleFc := ruleIsFc pln
  let m := if 0 < canItems.length then extractOne it.nm canItems else none
  let score : Nat := match m with
    | some si => si.1
    | none => 0
  let bestItem : Cell := match m with
    | some si =>
      if h : si.2 < canRows.length then getCell (canRows.get ⟨si.2, h⟩) "menu_item"
      else none
    | none => none
  let matchCat : Cell := match m with
    | some si =>
      if h : si.2 < canRows.length then getCell (canRows.get ⟨si.2, h⟩) "menu_category"
      else none
    | none => none
  let catFc := (match matchCat with
    | some c => fcCategories.contains c
    | none => false) && decide (60 ≤ score)
  let isFc := ruleFc || catFc || decide (threshold ≤ (score : Int))
  { product_raw := it.raw, product_norm := it.nm, product_line := pln,
    best_match_item := bestItem, match_category := matchCat,
    score := score, is_food_corner_auto := isFc }

/-- The normalized canonical item list (`can_items`, lines 191-193). -/
def canItemsOf (canonical : Df) : List String :=
  canonical.rows.map (fun r => normalizeText (cellStr (getCell r "menu_item")))

/-- `map_fc_products` (lines 134-268). Schema checks first: the
canonical table must contain `menu_item` and `menu_category` (lines
188-190), the invoice table must contain `key_col` (lines 196-197);
each violation raises `ValueError`, surfaced here as `.error`. -/
def mapFcProducts (invoice canonical : Df) (threshold : Int) (keyCol : String) :
    Except String (List OutRow) :=
  if !(canonical.cols.contains "menu_item" && canonical.cols.contains "menu_category") then
    .error "Canonical must contain [menu_category, menu_item]"
  else
    let canRows := canonical.rows
    let canItems := canItemsOf canonical
    if !invoice.cols.contains keyCol then
      .error ("key_col " ++ keyCol ++ " not found in invoice_df columns")
    else
      match buildItems invoice keyCol with
      | .error e => .error e
      | .ok items => .ok (items.map (classifyItem canRows canItems threshold))

/-- `map_fc_products` with the final values of its two dataframe
arguments made explicit. Every statement of the source either reads the
inputs or mutates a locally bound derived frame: `can` is a copy of
`canonical_df` (line 187) and receives the `menu_item_norm` column;
`items` is built from fresh selections of `invoice_df` (lines 199-223);
the in-place rename at line 267 targets `out_df`, a frame created at
line 263. Neither parameter is the target of any column assignment or
in-place operation, so both emerge unchanged. -/
def mapFcProductsTrace (invoice canonical : Df) (threshold : Int) (keyCol : String) :
    Except String (List OutRow) × Df × Df :=
  (mapFcProducts invoice canonical threshold keyCol, invoice, canonical)

/-! ## Idempotence of `normalize_text` -/

/-- Characters a normalized string can contain: lowercase ASCII
letters, digits, minus, plus, single spaces. -/
def goodChar (c : Char) : Bool :=
  (97 ≤ c.toNat && c.toNat ≤ 122) || (48 ≤ c.toNat && c.toNat ≤ 57) ||
    c = '-' || c = '+' || c = ' '

/-- Adjacent characters are never both whitespace. -/
def noWsWs (a b : Char) : Prop := isPyWs a = false ∨ isPyWs b = false

theorem toNat_eq_of_eq {c d : Char} (h : c = d) : c.toNat = d.toNat := by rw [h]

theorem goodChar_of_keep_not_ws {c : Char} (hk : keepChar c = true)
    (hw : isPyWs c = false) : goodChar c = true := by
  simp only [keepChar, Bool.or_eq_true, Bool.and_eq_true, decide_eq_true_eq] at hk
  simp only [goodChar, Bool.or_eq_true, Bool.and_eq_true, decide_eq_true_eq]
  rcases hk with ((((h | h) | h) | h) | h)
  · exact Or.inl (Or.inl (Or.inl (Or.inl h)))
  · exact Or.inl (Or.inl (Or.inl (Or.inr h)))
  · rw [h] at hw; cases hw
  · exact Or.inl (Or.inl (Or.inr h))
  · exact Or.inl (Or.inr h)

theorem goodChar_is_keep {c : Char} (h : goodChar c = true) : keepChar c = true := by
  simp only [goodChar, Bool.or_eq_true, Bool.and_eq_true, decide_eq_true_eq] at h
  simp only [keepChar, Bool.or_eq_true, Bool.and_eq_true, decide_eq_true_eq]
  rcases h with ((((h | h) | h) | h) | h)
  · exact Or.inl (Or.inl (Or.inl (Or.inl h)))
  · exact Or.inl (Or.inl (Or.inl (Or.inr h)))
  · exact Or.inl (Or.inr h)
  · exact Or.inr h
  · subst h; exact Or.inl (Or.inl (Or.inr (by decide)))

theorem goodChar_ws_is_space {c : Char} (hg : goodChar c = true)
    (hw : isPyWs c = true) : c = ' ' := by
  simp only [isPyWs, Bool.or_eq_true, decide_eq_true_eq] at hw
  rcases hw with (((((h | h) | h) | h) | h) | h)
  · exact h
  all_goals (subst h; exact absurd hg (by decide))

theorem goodChar_lt_128 {c : Char} (h : goodChar c = true) : c.toNat < 128 := by
  simp only [goodChar, Bool.or_eq_true, Bool.and_eq_true, decide_eq_true_eq] at h
  rcases h with ((((h | h) | h) | h) | h)
  · omega
  · omega
  · subst h; decide
  · subst h; decide
  · subst h; decide

theorem goodChar_toNat {c : Char} (h : goodChar c = true) :
    (97 ≤ c.toNat ∧ c.toNat ≤ 122) ∨ (48 ≤ c.toNat ∧ c.toNat ≤ 57) ∨
      c.toNat = 45 ∨ c.toNat = 43 ∨ c.toNat = 32 := by
  simp only [goodChar, Bool.or_eq_true, Bool.and_eq_true, decide_eq_true_eq] at h
  rcases h with ((((h | h) | h) | h) | h)
  · exact Or.inl h
  · exact Or.inr (Or.inl h)
  · subst h; exact Or.inr (Or.inr (Or.inl (by decide)))
  · subst h; exact Or.inr (Or.inr (Or.inr (Or.inl (by decide))))
  · subst h; exact Or.inr (Or.inr (Or.inr (Or.inr (by decide))))

theorem ne_nonAscii {c d : Char} (h : c.toNat < 128) (hd : 128 ≤ d.toNat) : ¬ c = d := by
  intro he; subst he; omega

theorem pyLowerChar_fix {c : Char} (h : goodChar c = true) : pyLowerChar c = c := by
  have hn := goodChar_toNat h
  have h128 : c.toNat < 128 := by omega
  simp only [pyLowerChar]
  rw [if_neg (by simp only [Bool.and_eq_true, decide_eq_true_eq]; omega)]
  rw [if_neg (ne_nonAscii h128 (by decide)), if_neg (ne_nonAscii h128 (by decide)),
    if_neg (ne_nonAscii h128 (by decide)), if_neg (ne_nonAscii h128 (by decide)),
    if_neg (ne_nonAscii h128 (by decide)), if_neg (ne_nonAscii h128 (by decide)),
    if_neg (ne_nonAscii h128 (by decide)), if_neg (ne_nonAscii h128 (by decide)),
    if_neg (ne_nonAscii h128 (by decide))]

theorem unidecodeChar_fix {c : Char} (h : goodChar c = true) : unidecodeChar c = [c] := by
  have hn := goodChar_toNat h
  simp only [unidecodeChar]
  rw [if_pos (by omega)]

theorem replaceBad_fix {l : List Char} (h : ∀ c ∈ l, goodChar c = true) :
    replaceBad l = l := by
  unfold replaceBad
  have : ∀ c ∈ l, (if keepChar c then c else ' ') = c := by
    intro c hc
    rw [if_pos (goodChar_is_keep (h c hc))]
  exact (List.map_congr_left this).trans (List.map_id l)

theorem mem_collapseWs : ∀ {l : List Char} {c : Char}, c ∈ collapseWs l →
    c = ' ' ∨ (c ∈ l ∧ isPyWs c = false)
  | [], c, h => by simp [collapseWs] at h
  | [d], c, h => by
    by_cases hw : isPyWs d = true
    · simp only [collapseWs, if_pos hw, List.mem_singleton] at h
      exact Or.inl h
    · simp only [collapseWs, if_neg hw, List.mem_singleton] at h
      subst h
      exact Or.inr ⟨List.mem_singleton.mpr rfl, by simpa using hw⟩
  | d :: e :: cs, c, h => by
    by_cases hd : isPyWs d = true
    · by_cases he : isPyWs e = true
      · rw [show collapseWs (d :: e :: cs) = collapseWs (e :: cs) from by
          simp [collapseWs, hd, he]] at h
        rcases mem_collapseWs h with h | ⟨hm, hw⟩
        · exact Or.inl h
        · exact Or.inr ⟨List.mem_cons_of_mem _ hm, hw⟩
      · rw [show collapseWs (d :: e :: cs) = ' ' :: collapseWs (e :: cs) from by
          simp [collapseWs, hd, he]] at h
        rcases List.mem_cons.mp h with h | h
        · exact Or.inl h
        · rcases mem_collapseWs h with h | ⟨hm, hw⟩
          · exact Or.inl h
          · exact Or.inr ⟨List.mem_cons_of_mem _ hm, hw⟩
    · rw [show collapseWs (d :: e :: cs) = d :: collapseWs (e :: cs) from by
        simp [collapseWs, hd]] at h
      rcases List.mem_cons.mp h with h | h
      · subst h
        exact Or.inr ⟨List.mem_cons_self _ _, by simpa using hd⟩
      · rcases mem_collapseWs h with h | ⟨hm, hw⟩
        · exact Or.inl h
        · exact Or.inr ⟨List.mem_cons_of_mem _ hm, hw⟩

theorem head?_dropWhile_ws {l : List Char} {c : Char}
    (h : (l.dropWhile isPyWs).head? = some c) : isPyWs c = false := by
  induction l with
  | nil => simp at h
  | cons d t ih =>
    by_cases hd : isPyWs d = true
    · rw [List.dropWhile_cons_of_pos hd] at h
      exact ih h
    · rw [List.dropWhile_cons_of_neg hd] at h
      simp only [List.head?_cons, Option.some.injEq] at h
      subst h
      exact Bool.not_eq_true _ ▸ hd

theorem head?_collapseWs_not_ws {d : Char} {cs : List Char} (h : isPyWs d = false) :
    (collapseWs (d :: cs)).head? = some d := by
  cases cs with
  | nil => simp [collapseWs, h]
  | cons e t => simp [collapseWs, h]

theorem chain_collapseWs : ∀ (l : List Char), List.Chain' noWsWs (collapseWs l)
  | [] => by simp [collapseWs]
  | [d] => by
    by_cases hw : isPyWs d = true <;> simp [collapseWs, hw]
  | d :: e :: cs => by
    by_cases hd : isPyWs d = true
    · by_cases he : isPyWs e = true
      · rw [show collapseWs (d :: e :: cs) = collapseWs (e :: cs) from by
          simp [collapseWs, hd, he]]
        exact chain_collapseWs (e :: cs)
      · rw [show collapseWs (d :: e :: cs) = ' ' :: collapseWs (e :: cs) from by
          simp [collapseWs, hd, he]]
        refine List.chain'_cons'.mpr ⟨?_, chain_collapseWs (e :: cs)⟩
        intro b hb
        rw [head?_collapseWs_not_ws (by simpa using he)] at hb
        have hbe : e = b := by simpa using hb
        subst hbe
        exact Or.inr (by simpa using he)
    · rw [show collapseWs (d :: e :: cs) = d :: collapseWs (e :: cs) from by
        simp [collapseWs, hd]]
      refine List.chain'_cons'.mpr ⟨?_, chain_collapseWs (e :: cs)⟩
      intro b _
      exact Or.inl (by simpa using hd)

theorem collapseWs_fix : ∀ (l : List Char), (∀ c ∈ l, goodChar c = true) →
    List.Chain' noWsWs l → collapseWs l = l
  | [], _, _ => by simp [collapseWs]
  | [d], hg, _ => by
    by_cases hw : isPyWs d = true
    · have hds : d = ' ' := goodChar_ws_is_space (hg d (List.mem_cons_self _ _)) hw
      subst hds
      simp [collapseWs]
    · simp [collapseWs, hw]
  | d :: e :: cs, hg, hc => by
    have hrest : collapseWs (e :: cs) = e :: cs :=
      collapseWs_fix (e :: cs) (fun c hcm => hg c (List.mem_cons_of_mem _ hcm))
        (List.chain'_cons'.mp hc).2
    by_cases hd : isPyWs d = true
    · have hde : noWsWs d e := (List.chain'_cons.mp hc).1
      rcases hde with h | h
      · rw [hd] at h; cases h
      · have hds : d = ' ' := goodChar_ws_is_space (hg d (List.mem_cons_self _ _)) hd
        rw [show collapseWs (d :: e :: cs) = ' ' :: collapseWs (e :: cs) from by
          simp [collapseWs, hd, h], hrest, hds]
    · rw [show collapseWs (d :: e :: cs) = d :: collapseWs (e :: cs) from by
        simp [collapseWs, hd], hrest]

theorem mem_stripWs {c : Char} {l : List Char} (h : c ∈ stripWs l) : c ∈ l := by
  unfold stripWs at h
  rw [List.mem_reverse] at h
  have h2 := (List.dropWhile_suffix isPyWs).subset h
  rw [List.mem_reverse] at h2
  exact (List.dropWhile_suffix isPyWs).subset h2

theorem chain_stripWs {l : List Char} (h : List.Chain' noWsWs l) :
    List.Chain' noWsWs (stripWs l) := by
  unfold stripWs
  have h1 : List.Chain' noWsWs (l.dropWhile isPyWs) :=
    h.suffix (List.dropWhile_suffix _)
  have h2 : List.Chain' noWsWs ((l.dropWhile isPyWs).reverse) :=
    List.chain'_reverse.mpr (h1.imp (fun a b hh => Or.symm hh))
  have h3 : List.Chain' noWsWs ((l.dropWhile isPyWs).reverse.dropWhile isPyWs) :=
    h2.suffix (List.dropWhile_suffix _)
  exact List.chain'_reverse.mpr (h3.imp (fun a b hh => Or.symm hh))

theorem stripWs_head {l : List Char} {c : Char} (h : (stripWs l).head? = some c) :
    isPyWs c = false := by
  have hp : ((l.dropWhile isPyWs).reverse.dropWhile isPyWs).reverse <+: l.dropWhile isPyWs := by
    rw [← List.reverse_suffix, List.reverse_reverse]
    exact List.dropWhile_suffix isPyWs
  rcases hp with ⟨t, ht⟩
  have : (l.dropWhile isPyWs).head? = some c := by
    rw [← ht, List.head?_append]
    unfold stripWs at h
    rw [h]
    rfl
  exact head?_dropWhile_ws this

theorem stripWs_last {l : List Char} {c : Char} (h : (stripWs l).getLast? = some c) :
    isPyWs c = false := by
  unfold stripWs at h
  rw [List.getLast?_reverse] at h
  exact head?_dropWhile_ws h

theorem dropWhile_ws_eq_self {l : List Char}
    (h : ∀ c, l.head? = some c → isPyWs c = false) : l.dropWhile isPyWs = l := by
  cases l with
  | nil => rfl
  | cons d t => exact List.dropWhile_cons_of_neg (by rw [h d rfl]; simp)

theorem stripWs_fix {l : List Char}
    (h1 : ∀ c, l.head? = some c → isPyWs c = false)
    (h2 : ∀ c, l.getLast? = some c → isPyWs c = false) : stripWs l = l := by
  unfold stripWs
  rw [dropWhile_ws_eq_self h1]
  rw [dropWhile_ws_eq_self (fun c hc => h2 c (by rwa [List.head?_reverse] at hc))]
  exact List.reverse_reverse l

theorem flatMap_singleton_fix {l : List Char} {f : Char → List Char}
    (h : ∀ c ∈ l, f c = [c]) : l.flatMap f = l := by
  induction l with
  | nil => rfl
  | cons a t ih =>
    simp only [List.flatMap_cons, h a (by simp)]
    rw [ih (fun c hc => h c (by simp [hc]))]
    rfl

theorem keep_of_mem_replaceBad {c : Char} {l : List Char} (h : c ∈ replaceBad l) :
    keepChar c = true := by
  rcases List.mem_map.mp h with ⟨d, _, hd⟩
  by_cases hk : keepChar d = true
  · rw [if_pos hk] at hd; rwa [← hd]
  · rw [if_neg hk] at hd; rw [← hd]; decide

theorem normalizeText_data_goodChar {s : String} :
    ∀ c ∈ (normalizeText s).data, goodChar c = true := by
  intro c hc
  have hc2 : c ∈ collapseWs (replaceBad ((s.data.map pyLowerChar).flatMap unidecodeChar)) :=
    mem_stripWs hc
  rcases mem_collapseWs hc2 with h | ⟨hm, hw⟩
  · subst h; decide
  · exact goodChar_of_keep_not_ws (keep_of_mem_replaceBad hm) hw

theorem normalizeText_data_chain {s : String} :
    List.Chain' noWsWs (normalizeText s).data :=
  chain_stripWs (chain_collapseWs _)

/-- C4: text normalization is idempotent — for every input string `s`,
`normalize(normalize(s)) = normalize(s)`, where normalize lowercases,
strips diacritics, replaces characters outside `[a-z0-9 space - +]`
with a space, collapses whitespace runs, and trims. -/
theorem normalizeText_idempotent (s : String) :
    normalizeText (normalizeText s) = normalizeText s := by
  have hg := normalizeText_data_goodChar (s := s)
  have hch := normalizeText_data_chain (s := s)
  have hh : ∀ c, (normalizeText s).data.head? = some c → isPyWs c = false :=
    fun c hc => stripWs_head hc
  have hl : ∀ c, (normalizeText s).data.getLast? = some c → isPyWs c = false :=
    fun c hc => stripWs_last hc
  conv_lhs => rw [normalizeText]
  have e1 : (normalizeText s).data.map pyLowerChar = (normalizeText s).data :=
    (List.map_congr_left (fun c hc => pyLowerChar_fix (hg c hc))).trans
      (List.map_id _)
  have e2 : (normalizeText s).data.flatMap unidecodeChar = (normalizeText s).data :=
    flatMap_singleton_fix (fun c hc => unidecodeChar_fix (hg c hc))
  rw [e1, e2, replaceBad_fix hg, collapseWs_fix _ hg hch, stripWs_fix hh hl]

/-! ## Structural lemmas about `mapFcProducts` -/

/-- The category-inherent signal of an output row:
`match_category in FC_CATEGORIES and score >= 60` (line 250). -/
def catSignal (r : OutRow) : Bool :=
  (match r.match_category with
   | some c => fcCategories.contains c
   | none => false) && decide (60 ≤ r.score)

/-- The score-threshold signal of an output row: `score >= threshold`
(line 251). -/
def scoreSignal (r : OutRow) (threshold : Int) : Bool :=
  decide (threshold ≤ (r.score : Int))

theorem classifyItem_isFc (canRows : List RowT) (canItems : List String) (t : Int)
    (it : Item) :
    (classifyItem canRows canItems t it).is_food_corner_auto =
      (ruleIsFc (classifyItem canRows canItems t it).product_line ||
        catSignal (classifyItem canRows canItems t it) ||
        scoreSignal (classifyItem canRows canItems t it) t) := rfl

theorem classifyItem_line_t_inv (canRows : List RowT) (canItems : List String)
    (t u : Int) (it : Item) :
    (classifyItem canRows canItems t it).product_line =
      (classifyItem canRows canItems u it).product_line := rfl

theorem classifyItem_cat_t_inv (canRows : List RowT) (canItems : List String)
    (t u : Int) (it : Item) :
    (classifyItem canRows canItems t it).match_category =
      (classifyItem canRows canItems u it).match_category := rfl

theorem classifyItem_score_t_inv (canRows : List RowT) (canItems : List String)
    (t u : Int) (it : Item) :
    (classifyItem canRows canItems t it).score =
      (classifyItem canRows canItems u it).score := rfl

theorem classifyItem_raw (canRows : List RowT) (canItems : List String) (t : Int)
    (it : Item) : (classifyItem canRows canItems t it).product_raw = it.raw := rfl

theorem classifyItem_norm (canRows : List RowT) (canItems : List String) (t : Int)
    (it : Item) : (classifyItem canRows canItems t it).product_norm = it.nm := rfl

theorem mapFcProducts_ok {invoice canonical : Df} {threshold : Int} {keyCol : String}
    {out : List OutRow}
    (h : mapFcProducts invoice canonical threshold keyCol = .ok out) :
    ∃ items, buildItems invoice keyCol = .ok items ∧
      out = items.map (classifyItem canonical.rows (canItemsOf canonical) threshold) := by
  simp only [mapFcProducts] at h
  split at h
  · cases h
  · split at h
    · cases h
    · cases hb : buildItems invoice keyCol with
      | error e => rw [hb] at h; cases h
      | ok items =>
        rw [hb] at h
        exact ⟨items, rfl, (Except.ok.inj h).symm⟩

theorem map_raw_of_mk {l : List String} {g : String → Item} (hg : ∀ s, (g s).raw = s) :
    (l.map g).map (fun it => it.raw) = l := by
  rw [List.map_map]
  exact (List.map_congr_left (fun a _ => hg a)).trans (List.map_id _)

theorem buildItems_raws {invoice : Df} {keyCol : String} {items : List Item}
    (h : buildItems invoice keyCol = .ok items) :
    items.map (fun it => it.raw) = dedupFirst (colValues invoice keyCol) := by
  simp only [buildItems] at h
  split at h
  · rw [← Except.ok.inj h]
    exact map_raw_of_mk (fun s => rfl)
  · split at h
    · split at h
      · rw [← Except.ok.inj h]
        exact map_raw_of_mk (fun s => rfl)
      · split at h
        · cases h
        · split at h
          · cases h
          · split at h
            · cases h
            · rw [← Except.ok.inj h]
              exact map_raw_of_mk (fun s => rfl)
    · rw [← Except.ok.inj h]
      exact map_raw_of_mk (fun s => rfl)

theorem buildItems_default {invoice : Df} {items : List Item}
    (h : buildItems invoice "product_line" = .ok items) :
    items = (dedupFirst (colValues invoice "product_line")).map (fun raw =>
      { raw := raw, nm := normalizeText raw, pln := some (normalizeText raw) }) := by
  simp only [buildItems, if_pos rfl] at h
  exact (Except.ok.inj h).symm

theorem mem_dedupSeen {α : Type} [DecidableEq α] :
    ∀ {l seen : List α} {x : α}, x ∈ dedupSeen seen l ↔ (x ∈ l ∧ x ∉ seen)
  | [], seen, x => by simp [dedupSeen]
  | a :: l, seen, x => by
    by_cases ha : a ∈ seen
    · rw [show dedupSeen seen (a :: l) = dedupSeen seen l from by simp [dedupSeen, ha]]
      rw [mem_dedupSeen]
      constructor
      · rintro ⟨h1, h2⟩
        exact ⟨List.mem_cons_of_mem _ h1, h2⟩
      · rintro ⟨h1, h2⟩
        rcases List.mem_cons.mp h1 with h | h
        · subst h; exact absurd ha h2
        · exact ⟨h, h2⟩
    · rw [show dedupSeen seen (a :: l) = a :: dedupSeen (a :: seen) l from by
        simp [dedupSeen, ha]]
      constructor
      · intro h
        rcases List.mem_cons.mp h with h | h
        · subst h; exact ⟨List.mem_cons_self _ _, ha⟩
        · rcases mem_dedupSeen.mp h with ⟨h1, h2⟩
          exact ⟨List.mem_cons_of_mem _ h1, fun hx => h2 (List.mem_cons_of_mem _ hx)⟩
      · rintro ⟨h1, h2⟩
        rcases List.mem_cons.mp h1 with h | h
        · subst h; exact List.mem_cons_self _ _
        · by_cases hxa : x = a
          · subst hxa; exact List.mem_cons_self _ _
          · refine List.mem_cons_of_mem _ (mem_dedupSeen.mpr ⟨h, ?_⟩)
            intro hx
            rcases List.mem_cons.mp hx with hxx | hxx
            · exact hxa hxx
            · exact h2 hxx

theorem mem_dedupFirst {α : Type} [DecidableEq α] {x : α} {l : List α} :
    x ∈ dedupFirst l ↔ x ∈ l := by
  unfold dedupFirst
  rw [mem_dedupSeen]
  simp

theorem nodup_dedupSeen {α : Type} [DecidableEq α] :
    ∀ (l seen : List α), (dedupSeen seen l).Nodup
  | [], seen => by simp [dedupSeen]
  | a :: l, seen => by
    by_cases ha : a ∈ seen
    · rw [show dedupSeen seen (a :: l) = dedupSeen seen l from by simp [dedupSeen, ha]]
      exact nodup_dedupSeen l seen
    · rw [show dedupSeen seen (a :: l) = a :: dedupSeen (a :: seen) l from by
        simp [dedupSeen, ha]]
      refine List.nodup_cons.mpr ⟨?_, nodup_dedupSeen l (a :: seen)⟩
      intro hmem
      exact (mem_dedupSeen.mp hmem).2 (List.mem_cons_self _ _)

theorem nodup_dedupFirst {α : Type} [DecidableEq α] (l : List α) :
    (dedupFirst l).Nodup := nodup_dedupSeen l []

theorem length_dedupFirst_eq_card {α : Type} [DecidableEq α] (l : List α) :
    (dedupFirst l).length = l.toFinset.card := by
  have hn := nodup_dedupFirst l
  have he : (dedupFirst l).toFinset = l.toFinset := by
    ext x
    simp [List.mem_toFinset, mem_dedupFirst]
  rw [← he, List.toFinset_card_of_nodup hn]

/-- Decidable equality of fallible results, used to evaluate concrete
runs inside proofs. -/
instance {e a : Type} [DecidableEq e] [DecidableEq a] : DecidableEq (Except e a) := fun x y =>
  match x, y with
  | .ok v, .ok w =>
    if h : v = w then .isTrue (by rw [h]) else .isFalse (by intro he; cases he; exact h rfl)
  | .error v, .error w =>
    if h : v = w then .isTrue (by rw [h]) else .isFalse (by intro he; cases he; exact h rfl)
  | .ok _, .error _ => .isFalse (by intro he; cases he)
  | .error _, .ok _ => .isFalse (by intro he; cases he)

/-! ## Concrete fixtures -/

/-- Canonical catalog with a single item `Pizza` in category `Pizza`. -/
def dfCanPizza : Df := ⟨["menu_item", "menu_category"],
  [[("menu_item", some "Pizza"), ("menu_category", some "Pizza")]]⟩

/-- Invoice with a single frozen-pizza line. -/
def dfInvFrozen : Df := ⟨["product_line"], [[("product_line", some "Pizza mrożona")]]⟩

/-- The record `map_fc_products` produces for `Pizza mrożona` against
`dfCanPizza` at threshold 70. -/
def rowFrozen : OutRow :=
  ⟨"Pizza mrożona", "pizza mrozona", "pizza mrozona", some "Pizza", some "Pizza", 100, true⟩

/-- Canonical catalog with a single non-FC item. -/
def dfCanDrink : Df := ⟨["menu_item", "menu_category"],
  [[("menu_item", some "Woda gazowana"), ("menu_category", some "Napoje")]]⟩

/-- Invoice with a single drink line. -/
def dfInvDrink : Df := ⟨["product_line"], [[("product_line", some "Woda gazowana")]]⟩

/-- The record for `Woda gazowana` against `dfCanDrink` at threshold 70. -/
def rowDrink : OutRow :=
  ⟨"Woda gazowana", "woda gazowana", "woda gazowana", some "Woda gazowana",
    some "Napoje", 100, true⟩

/-! ## C1: deny precedence -/

/-- The claim as stated: any output row whose normalized product text
hits a frozen/packaged deny pattern, or whose product-line text hits a
line-deny pattern, has `is_food_corner_auto = false` and `score = 0`. -/
def denyPrecedenceClaim : Prop :=
  ∀ invoice canonical threshold keyCol out,
    mapFcProducts invoice canonical threshold keyCol = .ok out →
    ∀ r ∈ out,
      (hitsAny negFrozenPack r.product_norm || hitsAny linesDeny r.product_line) = true →
      r.is_food_corner_auto = false ∧ r.score = 0

/-- C1 is false on the code: `Pizza mrożona` hits the frozen deny
pattern `\bmroz`, yet `map_fc_products` still fuzzy-matches it (score
100 against `Pizza`) and classifies it as FC. -/
theorem denyPrecedence_false : ¬ denyPrecedenceClaim := by
  intro h
  have hres := h dfInvFrozen dfCanPizza 70 "product_line" [rowFrozen] (by decide)
    rowFrozen (List.mem_cons_self _ _) (by decide)
  exact absurd hres.2 (by decide)

/-- C1 (amended): a deny hit on the product-line text (the `NEG_RE`
patterns actually consulted by the code) suppresses only the rule-based
signal; the fuzzy match is still attempted and the decision reduces to
the category-inherent and score-threshold signals, so neither
`is_food_corner_auto = false` nor `score = 0` is forced. -/
theorem denyHit_suppresses_rule_only :
    ∀ invoice canonical threshold keyCol out,
      mapFcProducts invoice canonical threshold keyCol = .ok out →
      ∀ r ∈ out,
        reSearchL negRuleRe (r.product_line.data.map pyLowerChar) = true →
        ruleIsFc r.product_line = false ∧
          r.is_food_corner_auto = (catSignal r || scoreSignal r threshold) := by
  intro invoice canonical t k out h r hr hneg
  obtain ⟨items, hb, rfl⟩ := mapFcProducts_ok h
  rcases List.mem_map.mp hr with ⟨it, hit, rfl⟩
  have hrule : ruleIsFc
      (classifyItem canonical.rows (canItemsOf canonical) t it).product_line = false := by
    simp only [ruleIsFc] at hneg ⊢
    rw [hneg]
    simp
  refine ⟨hrule, ?_⟩
  rw [classifyItem_isFc, hrule]
  simp

/-- Witness for the amended C1 at the frozen-pizza fixture. -/
theorem denyHit_suppresses_rule_only_witness :
    mapFcProducts dfInvFrozen dfCanPizza 70 "product_line" = .ok [rowFrozen] ∧
    reSearchL negRuleRe (rowFrozen.product_line.data.map pyLowerChar) = true ∧
    (ruleIsFc rowFrozen.product_line = false ∧
      rowFrozen.is_food_corner_auto = (catSignal rowFrozen || scoreSignal rowFrozen 70)) :=
  ⟨by decide, by decide,
    denyHit_suppresses_rule_only dfInvFrozen dfCanPizza 70 "product_line" [rowFrozen]
      (by decide) rowFrozen (List.mem_cons_self _ _) (by decide)⟩

/-! ## C2: category gating -/

/-- The claim as stated: a candidate for which no category resolves (no
product-line allow hit, no product-name allow hit, no super-category
inference) never has `is_food_corner_auto = true`. -/
def categoryGatingClaim : Prop :=
  ∀ invoice canonical threshold keyCol out,
    mapFcProducts invoice canonical threshold keyCol = .ok out →
    ∀ r ∈ out,
      firstHitCategory r.product_line linesAllow = none →
      firstHitCategory r.product_norm posAllow = none →
      inferSuperCat r.product_norm = none →
      r.is_food_corner_auto = false

/-- C2 is false on the code: `Woda gazowana` resolves no category under
any of the three resolvers, yet an exact fuzzy match against a canonical
item (category `Napoje`) scores 100 and the score-threshold signal alone
sets `is_food_corner_auto = true`. -/
theorem categoryGating_false : ¬ categoryGatingClaim := by
  intro h
  have hres := h dfInvDrink dfCanDrink 70 "product_line" [rowDrink] (by decide)
    rowDrink (List.mem_cons_self _ _) (by decide) (by decide) (by decide)
  exact absurd hres (by decide)

/-- C2 (amended): the code consults no candidate-side category
resolution; even when none of the three resolvers yields a category, the
decision is still the OR of the rule, category-inherent and
score-threshold signals, so a high fuzzy score alone can classify the
candidate as FC. -/
theorem categoryUnresolved_decision :
    ∀ invoice canonical threshold keyCol out,
      mapFcProducts invoice canonical threshold keyCol = .ok out →
      ∀ r ∈ out,
        firstHitCategory r.product_line linesAllow = none →
        firstHitCategory r.product_norm posAllow = none →
        inferSuperCat r.product_norm = none →
        r.is_food_corner_auto =
          (ruleIsFc r.product_line || catSignal r || scoreSignal r threshold) := by
  intro invoice canonical t k out h r hr _ _ _
  obtain ⟨items, hb, rfl⟩ := mapFcProducts_ok h
  rcases List.mem_map.mp hr with ⟨it, hit, rfl⟩
  exact classifyItem_isFc _ _ _ _

/-- Witness for the amended C2 at the drink fixture. -/
theorem categoryUnresolved_decision_witness :
    mapFcProducts dfInvDrink dfCanDrink 70 "product_line" = .ok [rowDrink] ∧
    firstHitCategory rowDrink.product_line linesAllow = none ∧
    firstHitCategory rowDrink.product_norm posAllow = none ∧
    inferSuperCat rowDrink.product_norm = none ∧
    rowDrink.is_food_corner_auto =
      (ruleIsFc rowDrink.product_line || catSignal rowDrink || scoreSignal rowDrink 70) :=
  ⟨by decide, by decide, by decide, by decide,
    categoryUnresolved_decision dfInvDrink dfCanDrink 70 "product_line" [rowDrink]
      (by decide) rowDrink (List.mem_cons_self _ _) (by decide) (by decide) (by decide)⟩

/-! ## C3: the decision is an OR of three signals -/

/-- C3: for every candidate (all candidates reach the matching step),
`is_food_corner_auto` equals the OR of exactly three signals: the
deterministic rule on the product-line text, the matched canonical
category being inherently FC with score at least 60, and the fuzzy score
reaching the threshold; any one alone is sufficient. -/
theorem isFc_eq_or_of_signals :
    ∀ invoice canonical threshold keyCol out,
      mapFcProducts invoice canonical threshold keyCol = .ok out →
      ∀ r ∈ out,
        r.is_food_corner_auto =
          (ruleIsFc r.product_line || catSignal r || scoreSignal r threshold) := by
  intro invoice canonical t k out h r hr
  obtain ⟨items, hb, rfl⟩ := mapFcProducts_ok h
  rcases List.mem_map.mp hr with ⟨it, hit, rfl⟩
  exact classifyItem_isFc _ _ _ _

/-- Witness for C3 at the frozen-pizza fixture (category-inherent and
score signals both fire, the rule signal does not). -/
theorem isFc_eq_or_of_signals_witness :
    mapFcProducts dfInvFrozen dfCanPizza 70 "product_line" = .ok [rowFrozen] ∧
    rowFrozen.is_food_corner_auto =
      (ruleIsFc rowFrozen.product_line || catSignal rowFrozen || scoreSignal rowFrozen 70) :=
  ⟨by decide,
    isFc_eq_or_of_signals dfInvFrozen dfCanPizza 70 "product_line" [rowFrozen]
      (by decide) rowFrozen (List.mem_cons_self _ _)⟩

/-! ## C5: threshold monotonicity -/

/-- C5: with all other inputs fixed, raising the threshold from `t` to
`u` can only flip a decision from true to false when that decision was
attributable solely to the score-threshold signal; a decision true via
the rule-based signal or the category-inherent signal stays true at
every threshold, and the outputs at the two thresholds agree row by row
on everything except the final boolean. -/
theorem threshold_monotonicity :
    ∀ invoice canonical t u keyCol out outU,
      mapFcProducts invoice canonical t keyCol = .ok out →
      mapFcProducts invoice canonical u keyCol = .ok outU →
      ∀ i, (hi : i < out.length) → (hiu : i < outU.length) →
        (t ≤ u → (outU.get ⟨i, hiu⟩).is_food_corner_auto = true →
          (out.get ⟨i, hi⟩).is_food_corner_auto = true) ∧
        ((ruleIsFc (out.get ⟨i, hi⟩).product_line || catSignal (out.get ⟨i, hi⟩)) = true →
          (outU.get ⟨i, hiu⟩).is_food_corner_auto = true) ∧
        ((out.get ⟨i, hi⟩).is_food_corner_auto = true →
          (outU.get ⟨i, hiu⟩).is_food_corner_auto = false →
          ruleIsFc (out.get ⟨i, hi⟩).product_line = false ∧
            catSignal (out.get ⟨i, hi⟩) = false ∧
            t ≤ ((out.get ⟨i, hi⟩).score : Int) ∧
            ¬ u ≤ ((out.get ⟨i, hi⟩).score : Int)) := by
  intro invoice canonical t u k out outU h hU i hi hiu
  obtain ⟨items, hb, rfl⟩ := mapFcProducts_ok h
  obtain ⟨itemsU, hbU, rfl⟩ := mapFcProducts_ok hU
  obtain rfl : items = itemsU := Except.ok.inj (hb.symm.trans hbU)
  simp only [List.get_eq_getElem, List.getElem_map]
  have hil : i < items.length := by simpa using hi
  set it := items[i]
  set c := classifyItem canonical.rows (canItemsOf canonical) t it with hc
  set cU := classifyItem canonical.rows (canItemsOf canonical) u it with hcU
  have hline : cU.product_line = c.product_line := rfl
  have hcat : catSignal cU = catSignal c := rfl
  have hscore : cU.score = c.score := rfl
  have hfc : c.is_food_corner_auto = (ruleIsFc c.product_line || catSignal c ||
      scoreSignal c t) := classifyItem_isFc _ _ _ _
  have hfcU : cU.is_food_corner_auto = (ruleIsFc c.product_line || catSignal c ||
      scoreSignal c u) := by
    rw [classifyItem_isFc, hline, hcat]
    simp only [scoreSignal]
    rw [show (classifyItem canonical.rows (canItemsOf canonical) u it).score = c.score from rfl]
  refine ⟨?_, ?_, ?_⟩
  · intro htu hone
    rw [hfcU] at hone
    rw [hfc]
    simp only [Bool.or_eq_true, scoreSignal, decide_eq_true_eq] at hone ⊢
    rcases hone with (h1 | h1) | h1
    · exact Or.inl (Or.inl h1)
    · exact Or.inl (Or.inr h1)
    · exact Or.inr (le_trans htu h1)
  · intro hsig
    rw [hfcU]
    simp only [Bool.or_eq_true] at hsig ⊢
    rcases hsig with h1 | h1
    · exact Or.inl (Or.inl h1)
    · exact Or.inl (Or.inr h1)
  · intro hone hzero
    rw [hfc] at hone
    rw [hfcU] at hzero
    simp only [Bool.or_eq_true] at hone
    simp only [Bool.or_eq_false_iff] at hzero
    obtain ⟨⟨hr, hcatf⟩, hsu⟩ := hzero
    refine ⟨hr, hcatf, ?_, ?_⟩
    · rcases hone with (h1 | h1) | h1
      · rw [h1] at hr; cases hr
      · rw [h1] at hcatf; cases hcatf
      · simpa [scoreSignal] using h1
    · simpa [scoreSignal] using hsu

/-- Witness for C5 at the frozen-pizza fixture with thresholds 70 and
90: the decision is driven by the category-inherent signal and stays
true after raising the threshold. -/
theorem threshold_monotonicity_witness :
    mapFcProducts dfInvFrozen dfCanPizza 70 "product_line" = .ok [rowFrozen] ∧
    mapFcProducts dfInvFrozen dfCanPizza 90 "product_line" = .ok [rowFrozen] ∧
    ((ruleIsFc rowFrozen.product_line || catSignal rowFrozen) = true →
      rowFrozen.is_food_corner_auto = true) :=
  ⟨by decide, by decide,
    (threshold_monotonicity dfInvFrozen dfCanPizza 70 90 "product_line" [rowFrozen]
      [rowFrozen] (by decide) (by decide) 0 (by decide) (by decide)).2.1⟩

/-! ## C6: one output row per distinct non-null key -/

/-- C6: rows with a null key are dropped, the remaining raw keys are
deduplicated keeping first occurrences, no two output rows share a raw
key, and the output row count equals the number of distinct non-null
key values. -/
theorem output_rows_unique :
    ∀ invoice canonical threshold keyCol out,
      mapFcProducts invoice canonical threshold keyCol = .ok out →
      out.map (fun r => r.product_raw) = dedupFirst (colValues invoice keyCol) ∧
      (out.map (fun r => r.product_raw)).Nodup ∧
      out.length = (colValues invoice keyCol).toFinset.card := by
  intro invoice canonical t k out h
  obtain ⟨items, hb, rfl⟩ := mapFcProducts_ok h
  have hmap : (items.map (classifyItem canonical.rows (canItemsOf canonical) t)).map
      (fun r => r.product_raw) = items.map (fun it => it.raw) := by
    rw [List.map_map]
    exact List.map_congr_left (fun a _ => rfl)
  have hraws := buildItems_raws hb
  refine ⟨hmap.trans hraws, ?_, ?_⟩
  · rw [hmap.trans hraws]
    exact nodup_dedupFirst _
  · have hlen : items.length = (dedupFirst (colValues invoice k)).length := by
      rw [← hraws, List.length_map]
    rw [List.length_map, hlen, length_dedupFirst_eq_card]

/-- Invoice fixture with a duplicated key, a null key and a second
distinct key. -/
def dfInvDup : Df := ⟨["product_line"],
  [[("product_line", some "Kawa")], [("product_line", none)],
   [("product_line", some "Kawa")], [("product_line", some "Piwo")]]⟩

/-- The two records produced for `dfInvDup` against `dfCanPizza`. -/
def rowKawa : OutRow := ⟨"Kawa", "kawa", "kawa", some "Pizza", some "Pizza", 22, false⟩

/-- Second record of the `dfInvDup` run. -/
def rowPiwo : OutRow := ⟨"Piwo", "piwo", "piwo", some "Pizza", some "Pizza", 44, false⟩

/-- Witness for C6: four invoice rows with one null key and one
duplicate yield exactly two output rows, one per distinct non-null key. -/
theorem output_rows_unique_witness :
    mapFcProducts dfInvDup dfCanPizza 70 "product_line" = .ok [rowKawa, rowPiwo] ∧
    ([rowKawa, rowPiwo].map (fun r => r.product_raw) =
        dedupFirst (colValues dfInvDup "product_line") ∧
      ([rowKawa, rowPiwo].map (fun r => r.product_raw)).Nodup ∧
      [rowKawa, rowPiwo].length = (colValues dfInvDup "product_line").toFinset.card) :=
  ⟨by decide,
    output_rows_unique dfInvDup dfCanPizza 70 "product_line" [rowKawa, rowPiwo] (by decide)⟩

/-! ## C7: schema errors are the only failures (code bug) -/

/-- Invoice fixture for the non-default key configuration: both the
configured key column and a `product_line` column are present. -/
def dfInvProd : Df := ⟨["product", "product_line"],
  [[("product", some "Hot-Dog XXL"), ("product_line", some "Gastronomia")]]⟩

/-- C7 (code bug): the claim says `map_fc_products` raises exactly on a
missing required column. The schema columns are all present here, yet
the run with `key_col = "product"` fails: the fallback branch applies
the Series-valued `normalize_text` elementwise, so the per-row values
become per-character frames and pandas raises before any output row is
produced. The missing-column checks themselves behave as claimed. -/
theorem schema_error_bug :
    ("menu_item" ∈ dfCanPizza.cols ∧ "menu_category" ∈ dfCanPizza.cols ∧
      "product" ∈ dfInvProd.cols) ∧
    mapFcProducts dfInvProd dfCanPizza 70 "product" =
      .error "ValueError: cannot set a DataFrame with multiple columns to the single column product_line" ∧
    mapFcProducts dfInvProd (⟨["menu_item"], []⟩ : Df) 70 "product" =
      .error "Canonical must contain [menu_category, menu_item]" ∧
    mapFcProducts (⟨["x"], []⟩ : Df) dfCanPizza 70 "product" =
      .error "key_col product not found in invoice_df columns" := by
  refine ⟨by decide, by decide, by decide, by decide⟩

/-! ## C8: empty canonical catalog -/

/-- Invoice fixture with one plain non-FC key. -/
def dfInvWoda : Df := ⟨["product_line"], [[("product_line", some "Woda")]]⟩

/-- Canonical fixture with the required columns and no rows. -/
def dfCanEmpty : Df := ⟨["menu_item", "menu_category"], []⟩

/-- Output row for `Woda` against the empty catalog at threshold 0. -/
def rowWodaT0 : OutRow := ⟨"Woda", "woda", "woda", none, none, 0, true⟩

/-- The claim as stated: with an empty canonical candidate set, every
record has null match fields and score 0, and is FC only when the
rule-based product-line signal alone holds. -/
def emptyCatalogClaim : Prop :=
  ∀ invoice canonical threshold keyCol out,
    mapFcProducts invoice canonical threshold keyCol = .ok out →
    canonical.rows = [] →
    ∀ r ∈ out,
      r.best_match_item = none ∧ r.match_category = none ∧ r.score = 0 ∧
        (r.is_food_corner_auto = true → ruleIsFc r.product_line = true)

/-- C8 is false as stated: at `threshold = 0` the score-threshold signal
`0 >= 0` fires even with an empty catalog, so `Woda` is classified FC
although its rule-based signal is false. -/
theorem emptyCatalog_false : ¬ emptyCatalogClaim := by
  intro h
  have hres := h dfInvWoda dfCanEmpty 0 "product_line" [rowWodaT0] (by decide) rfl
    rowWodaT0 (List.mem_cons_self _ _)
  exact absurd (hres.2.2.2 (by decide)) (by decide)

/-- C8 (amended): with an empty canonical candidate set every record has
null match fields and score 0, and `is_food_corner_auto` equals the
rule-based signal OR the score-threshold signal evaluated at score 0 —
false unless the rule fires or the threshold is at most 0. -/
theorem emptyCatalog_behavior :
    ∀ invoice canonical threshold keyCol out,
      mapFcProducts invoice canonical threshold keyCol = .ok out →
      canonical.rows = [] →
      ∀ r ∈ out,
        r.best_match_item = none ∧ r.match_category = none ∧ r.score = 0 ∧
          r.is_food_corner_auto = (ruleIsFc r.product_line || scoreSignal r threshold) := by
  intro invoice canonical t k out h hrows r hr
  obtain ⟨items, hb, rfl⟩ := mapFcProducts_ok h
  rcases List.mem_map.mp hr with ⟨it, hit, rfl⟩
  have hcan : canItemsOf canonical = [] := by simp [canItemsOf, hrows]
  have he : classifyItem canonical.rows (canItemsOf canonical) t it =
      classifyItem [] [] t it := by rw [hrows, hcan]
  rw [he]
  refine ⟨rfl, rfl, rfl, ?_⟩
  rw [classifyItem_isFc]
  rw [show catSignal (classifyItem [] [] t it) = false from rfl]
  simp

/-- Witness for the amended C8: empty catalog at the default threshold
yields a non-FC record with null match fields. -/
theorem emptyCatalog_behavior_witness :
    mapFcProducts dfInvWoda dfCanEmpty 0 "product_line" = .ok [rowWodaT0] ∧
    dfCanEmpty.rows = [] ∧
    (rowWodaT0.best_match_item = none ∧ rowWodaT0.match_category = none ∧
      rowWodaT0.score = 0 ∧
      rowWodaT0.is_food_corner_auto =
        (ruleIsFc rowWodaT0.product_line || scoreSignal rowWodaT0 0)) :=
  ⟨by decide, rfl,
    emptyCatalog_behavior dfInvWoda dfCanEmpty 0 "product_line" [rowWodaT0] (by decide)
      rfl rowWodaT0 (List.mem_cons_self _ _)⟩

/-! ## C9: the inputs are not mutated -/

/-- C9: `map_fc_products` leaves both input tables unchanged — the
traced version, which threads the final values of the two dataframe
arguments through the translated statements, returns them exactly as
passed: the source mutates only its local copy `can`, the derived
`items` table and the fresh `out_df`. -/
theorem mapFcProducts_inputs_unchanged (invoice canonical : Df) (threshold : Int)
    (keyCol : String) :
    (mapFcProductsTrace invoice canonical threshold keyCol).2.1 = invoice ∧
    (mapFcProductsTrace invoice canonical threshold keyCol).2.2 = canonical :=
  ⟨rfl, rfl⟩

/-! ## C10: default key makes `product_line` equal `product_norm` -/

/-- C10: under the default configuration `key_col = "product_line"`,
every output row has `product_line = product_norm`; both are the
normalization of the same raw key string. -/
theorem default_key_line_eq_norm :
    ∀ invoice canonical threshold out,
      mapFcProducts invoice canonical threshold "product_line" = .ok out →
      ∀ r ∈ out, r.product_line = r.product_norm := by
  intro invoice canonical t out h r hr
  obtain ⟨items, hb, rfl⟩ := mapFcProducts_ok h
  rcases List.mem_map.mp hr with ⟨it, hit, rfl⟩
  rw [buildItems_default hb] at hit
  rcases List.mem_map.mp hit with ⟨raw, _, rfl⟩
  rfl

/-- Witness for C10 at the drink fixture. -/
theorem default_key_line_eq_norm_witness :
    mapFcProducts dfInvDrink dfCanDrink 70 "product_line" = .ok [rowDrink] ∧
    rowDrink.product_line = rowDrink.product_norm :=
  ⟨by decide,
    default_key_line_eq_norm dfInvDrink dfCanDrink 70 [rowDrink] (by decide) rowDrink
      (List.mem_cons_self _ _)⟩
